import Mathlib

/-!
# Verification of the hello-helm rendering pipeline

Shallow embedding of the repository's Helm charts (backend and frontend) as
pure Lean functions, following the template sources quoted in
`docs/HELM-CHART-WALKTHROUGH.md`, `docs/FRONTEND-DEPLOYMENT-PLAN.md`,
`helm_charts/backend/STRUCTURE.md` and
`helm_charts/backend/TROUBLESHOOTING-NOTES.md`, together with a model of the
spec's dependency-graph builder (which has no counterpart in the repository's
chart sources).
-/

namespace HelloHelm

/-! ## String helpers (sprig `trunc 63` and `trimSuffix "-"`) -/

/-- Sprig `trunc 63`: keep the first 63 characters, dropping the tail. -/
def trunc63 (s : String) : String := ⟨s.data.take 63⟩

/-- Sprig `trimSuffix "-"`: remove one trailing `-` if present. -/
def trimSuffixDash (s : String) : String :=
  if s.data.getLast? = some '-' then ⟨s.data.dropLast⟩ else s

/-- Boolean prefix test on character lists. -/
def isPrefixL : List Char → List Char → Bool
  | [], _ => true
  | _ :: _, [] => false
  | a :: as, b :: bs => a = b && isPrefixL as bs

/-- Sprig `contains`: substring test (needle, haystack), on character lists. -/
def containsSub (needle : List Char) : List Char → Bool
  | [] => isPrefixL needle []
  | hay@(_ :: rest) => isPrefixL needle hay || containsSub needle rest

/-! ## Base64 (sprig `b64enc`), modelling
`username: {{ .Values.postgres.auth.username | b64enc | quote }}` in
`templates/postgres-secret.yaml` (HELM-CHART-WALKTHROUGH.md, Step 6). -/

def b64Alphabet : List Char :=
  "ABCDEFGHIJKLMNOPQRSTUVWXYZabcdefghijklmnopqrstuvwxyz0123456789+/".data

def b64Char (n : Nat) : Char := b64Alphabet.getD n 'A'

def charIdxAux (c : Char) : List Char → Nat → Option Nat
  | [], _ => none
  | a :: as, n => if a = c then some n else charIdxAux c as (n + 1)

def b64CharIndex (c : Char) : Option Nat := charIdxAux c b64Alphabet 0

/-- Standard base64 encoding of a byte list. -/
def b64encodeBytes : List Nat → List Char
  | [] => []
  | [b1] => [b64Char (b1 / 4), b64Char (b1 % 4 * 16), '=', '=']
  | [b1, b2] =>
      [b64Char (b1 / 4), b64Char (b1 % 4 * 16 + b2 / 16), b64Char (b2 % 16 * 4), '=']
  | b1 :: b2 :: b3 :: rest =>
      b64Char (b1 / 4) :: b64Char (b1 % 4 * 16 + b2 / 16) ::
      b64Char (b2 % 16 * 4 + b3 / 64) :: b64Char (b3 % 64) :: b64encodeBytes rest

/-- Standard base64 decoding back to a byte list. -/
def b64decodeChars : List Char → Option (List Nat)
  | [] => some []
  | c1 :: c2 :: c3 :: c4 :: rest =>
    if c3 = '=' then
      if c4 = '=' ∧ rest = [] then
        match b64CharIndex c1, b64CharIndex c2 with
        | some d1, some d2 => some [d1 * 4 + d2 / 16]
        | _, _ => none
      else none
    else if c4 = '=' then
      if rest = [] then
        match b64CharIndex c1, b64CharIndex c2, b64CharIndex c3 with
        | some d1, some d2, some d3 =>
            some [d1 * 4 + d2 / 16, d2 % 16 * 16 + d3 / 4]
        | _, _, _ => none
      else none
    else
      match b64CharIndex c1, b64CharIndex c2, b64CharIndex c3, b64CharIndex c4,
            b64decodeChars rest with
      | some d1, some d2, some d3, some d4, some bs =>
          some ((d1 * 4 + d2 / 16) :: (d2 % 16 * 16 + d3 / 4) ::
                (d3 % 4 * 64 + d4) :: bs)
      | _, _, _, _, _ => none
  | _ => none

/-- Code points of a string (equals its UTF-8 bytes for ASCII strings). -/
def strBytes (s : String) : List Nat := s.data.map Char.toNat

/-- Sprig `b64enc` on a string (accurate for ASCII input). -/
def b64enc (s : String) : String := ⟨b64encodeBytes (strBytes s)⟩

/-- Base64 decoding of a string back to a string. -/
def b64decToString (s : String) : Option String :=
  (b64decodeChars s.data).map (fun bs => ⟨bs.map Char.ofNat⟩)

/-! ## Backend chart values (`helm_charts/backend/values.yaml`,
quoted in HELM-CHART-WALKTHROUGH.md, Step 2) -/

structure PostgresAuth where
  database : String
  username : String
  password : String
deriving Repr, DecidableEq

structure PostgresValues where
  enabled : Bool
  imageRepository : String
  imageTag : String
  auth : PostgresAuth
  persistenceSize : String
deriving Repr, DecidableEq

structure BackendValues where
  replicaCount : Nat
  imageRepository : String
  imageTag : String
  servicePort : Int
  /-- `env:` map of plain values; Go template `range` iterates maps in
  sorted key order, so rendering sorts this association list by key. -/
  env : List (String × String)
  postgres : PostgresValues
  nameOverride : String
  fullnameOverride : String
deriving Repr, DecidableEq

def defaultBackendValues : BackendValues :=
  { replicaCount := 1
    imageRepository := "backend-app"
    imageTag := "latest"
    servicePort := 8000
    env := [("PYTHONUNBUFFERED", "1")]
    postgres :=
      { enabled := true
        imageRepository := "postgres"
        imageTag := "15-alpine"
        auth := { database := "appdb", username := "appuser", password := "supersecret" }
        persistenceSize := "1Gi" }
    nameOverride := ""
    fullnameOverride := "" }

/-! ## Name helpers (`templates/_helpers.tpl`)

The frontend helper is quoted in full in FRONTEND-DEPLOYMENT-PLAN.md
(Task 3, "Copy from backend and adjust"), so the backend helper has the
same structure with chart name `backend`. -/

/-- `default .Chart.Name .Values.nameOverride` from the helpers. -/
def chartNameOf (chartName nameOverride : String) : String :=
  if nameOverride ≠ "" then nameOverride else chartName

/-- `fullname` helper: `fullnameOverride`, else the release name when it
already contains the chart name, else `<release>-<chart>`; each branch is
passed through `trunc 63 | trimSuffix "-"`. -/
def chartFullname (chartName releaseName nameOverride fullnameOverride : String) : String :=
  if fullnameOverride ≠ "" then trimSuffixDash (trunc63 fullnameOverride)
  else if containsSub (chartNameOf chartName nameOverride).data releaseName.data then
    trimSuffixDash (trunc63 releaseName)
  else trimSuffixDash (trunc63 (releaseName ++ "-" ++ chartNameOf chartName nameOverride))

def backendFullname (releaseName : String) (v : BackendValues) : String :=
  chartFullname "backend" releaseName v.nameOverride v.fullnameOverride

/-- `{{ .Release.Name }}-postgres`: postgres Service and StatefulSet name
(templates/postgres-service.yaml, templates/postgres-statefulset.yaml). -/
def pgServiceName (releaseName : String) : String := releaseName ++ "-postgres"

/-- `{{ .Release.Name }}-postgres-secret` (templates/postgres-secret.yaml). -/
def pgSecretName (releaseName : String) : String := releaseName ++ "-postgres-secret"

/-- Storage-claim name: volumeClaimTemplate `postgres-data` instantiated for
pod 0 of the StatefulSet `<release>-postgres`
(`PVC: postgres-data-my-backend-postgres-0` in STRUCTURE.md). -/
def pgStorageClaimName (releaseName : String) : String :=
  "postgres-data-" ++ releaseName ++ "-postgres-0"

/-! ## Rendered resource descriptors -/

inductive EnvValue where
  /-- a literal `value:` entry -/
  | lit (s : String)
  /-- a `valueFrom.secretKeyRef` entry -/
  | secretRef (secretName key : String)
deriving Repr, DecidableEq

structure EnvEntry where
  name : String
  value : EnvValue
deriving Repr, DecidableEq

structure InitContainer where
  name : String
  image : String
  command : List String
  args : List String
deriving Repr, DecidableEq

structure Deployment where
  name : String
  replicas : Nat
  initContainers : List InitContainer
  containerName : String
  image : String
  containerPort : Int
  env : List EnvEntry
deriving Repr, DecidableEq

structure Service where
  name : String
  type : String
  port : Int
  targetPort : String
  headless : Bool
deriving Repr, DecidableEq

/-- Rendered Secret; the three data fields hold base64-encoded values. -/
structure SecretResource where
  name : String
  username : String
  password : String
  database : String
deriving Repr, DecidableEq

structure StatefulSet where
  name : String
  serviceName : String
  replicas : Nat
  image : String
  env : List EnvEntry
  claimName : String
  storageSize : String
deriving Repr, DecidableEq

/-! ## Backend chart rendering (templates quoted in
HELM-CHART-WALKTHROUGH.md Steps 4-8 and TROUBLESHOOTING-NOTES.md) -/

/-- The `wait-for-postgres` init-container script:
`until nc -z {{ .Release.Name }}-postgres 5432; do echo "Waiting for postgres..."; sleep 2; done` -/
def waitForPostgresScript (releaseName : String) : String :=
  "until nc -z " ++ pgServiceName releaseName ++ " 5432; do\n" ++
  "  echo \x22Waiting for postgres...\x22\n" ++
  "  sleep 2\n" ++
  "done\n"

def waitForPostgres (releaseName : String) : InitContainer :=
  { name := "wait-for-postgres"
    image := "busybox:1.36"
    command := ["sh", "-c"]
    args := [waitForPostgresScript releaseName] }

/-- Insertion sort by key, modelling Go template `range` over a map
(iteration in sorted key order). -/
def insertByKey (p : String × String) : List (String × String) → List (String × String)
  | [] => [p]
  | q :: rest => if p.1 ≤ q.1 then p :: q :: rest else q :: insertByKey p rest

def sortEnvPairs : List (String × String) → List (String × String)
  | [] => []
  | p :: rest => insertByKey p (sortEnvPairs rest)

/-- Backend container environment: the plain `.Values.env` entries followed by
the `postgres.enabled`-guarded database entries (DB_HOST literal, the
credential fields as secretKeyRef into `<release>-postgres-secret`). -/
def backendEnv (releaseName : String) (v : BackendValues) : List EnvEntry :=
  (sortEnvPairs v.env).map (fun p => ⟨p.1, .lit p.2⟩) ++
  (if v.postgres.enabled then
    [⟨"DB_HOST", .lit (releaseName ++ "-postgres")⟩,
     ⟨"DB_NAME", .secretRef (pgSecretName releaseName) "database"⟩,
     ⟨"DB_USER", .secretRef (pgSecretName releaseName) "username"⟩,
     ⟨"DB_PASSWORD", .secretRef (pgSecretName releaseName) "password"⟩]
   else [])

/-- `templates/deployment.yaml`: the init container is emitted
unconditionally; only the DB env entries are guarded by `postgres.enabled`. -/
def backendDeployment (releaseName : String) (v : BackendValues) : Deployment :=
  { name := backendFullname releaseName v
    replicas := v.replicaCount
    initContainers := [waitForPostgres releaseName]
    containerName := "backend"
    image := v.imageRepository ++ ":" ++ v.imageTag
    containerPort := v.servicePort
    env := backendEnv releaseName v }

/-- `templates/service.yaml`. -/
def backendService (releaseName : String) (v : BackendValues) : Service :=
  { name := backendFullname releaseName v
    type := "ClusterIP"
    port := v.servicePort
    targetPort := "http"
    headless := false }

/-- `templates/postgres-secret.yaml`: guarded by `postgres.enabled`;
fields are `b64enc` of the configured literals. -/
def pgSecret (releaseName : String) (v : BackendValues) : Option SecretResource :=
  if v.postgres.enabled then
    some { name := pgSecretName releaseName
           username := b64enc v.postgres.auth.username
           password := b64enc v.postgres.auth.password
           database := b64enc v.postgres.auth.database }
  else none

/-- `templates/postgres-statefulset.yaml`: guarded by `postgres.enabled`. -/
def pgStatefulSet (releaseName : String) (v : BackendValues) : Option StatefulSet :=
  if v.postgres.enabled then
    some { name := pgServiceName releaseName
           serviceName := pgServiceName releaseName
           replicas := 1
           image := v.postgres.imageRepository ++ ":" ++ v.postgres.imageTag
           env := [⟨"POSTGRES_USER", .secretRef (pgSecretName releaseName) "username"⟩,
                   ⟨"POSTGRES_PASSWORD", .secretRef (pgSecretName releaseName) "password"⟩,
                   ⟨"POSTGRES_DB", .secretRef (pgSecretName releaseName) "database"⟩,
                   ⟨"PGDATA", .lit "/var/lib/postgresql/data/pgdata"⟩]
           claimName := "postgres-data"
           storageSize := v.postgres.persistenceSize }
  else none

/-- `templates/postgres-service.yaml`: headless service on port 5432,
guarded by `postgres.enabled`. -/
def pgService (releaseName : String) (v : BackendValues) : Option Service :=
  if v.postgres.enabled then
    some { name := pgServiceName releaseName
           type := "ClusterIP"
           port := 5432
           targetPort := "postgres"
           headless := true }
  else none

structure BackendResourceSet where
  deployment : Deployment
  service : Service
  secret : Option SecretResource
  statefulSet : Option StatefulSet
  postgresService : Option Service
deriving Repr, DecidableEq

def renderBackend (releaseName : String) (v : BackendValues) : BackendResourceSet :=
  { deployment := backendDeployment releaseName v
    service := backendService releaseName v
    secret := pgSecret releaseName v
    statefulSet := pgStatefulSet releaseName v
    postgresService := pgService releaseName v }

/-! ## Frontend chart (`helm_charts/frontend`, quoted in
FRONTEND-DEPLOYMENT-PLAN.md Tasks 2-5) -/

/-- A YAML scalar as it may occur for `backend.port` (the template applies
sprig `int` to it). -/
inductive Scalar where
  | int (i : Int)
  | str (s : String)
deriving Repr, DecidableEq

def parseDigits : List Char → Option Nat
  | [] => none
  | l => l.foldlM (fun acc c => if c.isDigit then some (acc * 10 + (c.toNat - 48)) else none) 0

/-- Sprig `int`: integers pass through, numeric strings are parsed,
anything else coerces to 0. -/
def scalarToInt : Scalar → Int
  | .int i => i
  | .str s => match parseDigits s.data with
    | some n => (n : Int)
    | none => 0

structure BackendConn where
  releaseName : String
  port : Scalar
  /-- absent (`none`) or empty string count as unset, per Go template
  truthiness of `.Values.backend.customUrl`. -/
  customUrl : Option String
deriving Repr, DecidableEq

structure FrontendValues where
  replicaCount : Nat
  imageRepository : String
  imageTag : String
  servicePort : Int
  env : List (String × String)
  backend : BackendConn
  nameOverride : String
  fullnameOverride : String
  autoscalingEnabled : Bool
deriving Repr, DecidableEq

def defaultFrontendValues : FrontendValues :=
  { replicaCount := 1
    imageRepository := "frontend-app"
    imageTag := "latest"
    servicePort := 3000
    env := [("NODE_ENV", "production")]
    backend := { releaseName := "my-backend", port := .int 8000, customUrl := none }
    nameOverride := ""
    fullnameOverride := ""
    autoscalingEnabled := false }

def frontendFullname (releaseName : String) (v : FrontendValues) : String :=
  chartFullname "frontend" releaseName v.nameOverride v.fullnameOverride

/-- `frontend.backendUrl` helper (`_helpers.tpl`):
`customUrl` when truthy, else `printf "http://%s:%d" .Values.backend.releaseName (int .Values.backend.port)`. -/
def backendUrl (v : FrontendValues) : String :=
  let defaultUrl :=
    "http://" ++ v.backend.releaseName ++ ":" ++ toString (scalarToInt v.backend.port)
  match v.backend.customUrl with
  | some u => if u = "" then defaultUrl else u
  | none => defaultUrl

/-- Frontend `templates/deployment.yaml`: plain env entries followed by
`BACKEND_URL`; no init containers. -/
def frontendDeployment (releaseName : String) (v : FrontendValues) : Deployment :=
  { name := frontendFullname releaseName v
    replicas := v.replicaCount
    initContainers := []
    containerName := "frontend"
    image := v.imageRepository ++ ":" ++ v.imageTag
    containerPort := v.servicePort
    env := (sortEnvPairs v.env).map (fun p => ⟨p.1, .lit p.2⟩) ++
           [⟨"BACKEND_URL", .lit (backendUrl v)⟩] }

/-- Frontend `templates/service.yaml`. -/
def frontendService (releaseName : String) (v : FrontendValues) : Service :=
  { name := frontendFullname releaseName v
    type := "ClusterIP"
    port := v.servicePort
    targetPort := "http"
    headless := false }

structure FrontendResourceSet where
  deployment : Deployment
  service : Service
deriving Repr, DecidableEq

def renderFrontend (releaseName : String) (v : FrontendValues) : FrontendResourceSet :=
  { deployment := frontendDeployment releaseName v
    service := frontendService releaseName v }

/-! ## Serialization of a rendered release to a single string
(the byte output of `helm template`) -/

def EnvValue.render : EnvValue → String
  | .lit s => "value: \x22" ++ s ++ "\x22\n"
  | .secretRef n k => "valueFrom: secretKeyRef: name: " ++ n ++ " key: " ++ k ++ "\n"

def renderEnvEntry (e : EnvEntry) : String :=
  "- name: " ++ e.name ++ "\n  " ++ e.value.render

def renderInitContainer (c : InitContainer) : String :=
  "- name: " ++ c.name ++ "\n  image: " ++ c.image ++
  "\n  command: [" ++ String.intercalate ", " c.command ++
  "]\n  args:\n" ++ String.join c.args

def Deployment.render (d : Deployment) : String :=
  "kind: Deployment\nname: " ++ d.name ++
  "\nreplicas: " ++ toString d.replicas ++
  "\ninitContainers:\n" ++ String.join (d.initContainers.map renderInitContainer) ++
  "container: " ++ d.containerName ++ "\nimage: " ++ d.image ++
  "\ncontainerPort: " ++ toString d.containerPort ++
  "\nenv:\n" ++ String.join (d.env.map renderEnvEntry)

def Service.render (s : Service) : String :=
  "kind: Service\nname: " ++ s.name ++ "\ntype: " ++ s.type ++
  "\nport: " ++ toString s.port ++ "\ntargetPort: " ++ s.targetPort ++
  (if s.headless then "\nclusterIP: None" else "") ++ "\n"

def SecretResource.render (s : SecretResource) : String :=
  "kind: Secret\nname: " ++ s.name ++
  "\ndata:\n  username: \x22" ++ s.username ++
  "\x22\n  password: \x22" ++ s.password ++
  "\x22\n  database: \x22" ++ s.database ++ "\x22\n"

def StatefulSet.render (s : StatefulSet) : String :=
  "kind: StatefulSet\nname: " ++ s.name ++ "\nserviceName: " ++ s.serviceName ++
  "\nreplicas: " ++ toString s.replicas ++ "\nimage: " ++ s.image ++
  "\nenv:\n" ++ String.join (s.env.map renderEnvEntry) ++
  "volumeClaimTemplate: " ++ s.claimName ++ "\nstorage: " ++ s.storageSize ++ "\n"

def renderOpt {α : Type} (f : α → String) : Option α → String
  | some a => f a
  | none => ""

/-- Full byte output of rendering the backend chart. -/
def renderBackendManifests (releaseName : String) (v : BackendValues) : String :=
  let r := renderBackend releaseName v
  r.deployment.render ++ "---\n" ++ r.service.render ++ "---\n" ++
  renderOpt SecretResource.render r.secret ++ "---\n" ++
  renderOpt StatefulSet.render r.statefulSet ++ "---\n" ++
  renderOpt Service.render r.postgresService

/-- Full byte output of rendering the frontend chart. -/
def renderFrontendManifests (releaseName : String) (v : FrontendValues) : String :=
  let r := renderFrontend releaseName v
  r.deployment.render ++ "---\n" ++ r.service.render

/-! ## Semantics of the wait-for-postgres loop

`waitForPostgresScript` runs
`until nc -z <host> 5432; do echo "Waiting for postgres..."; sleep 2; done`.
`gateSteps reach k fuel` runs the loop starting at attempt `k`, where
`reach n` says whether `nc -z` succeeds at attempt `n`; it returns the list
of lines echoed before success, or `none` when `fuel` attempts were not
enough (the loop is still waiting). One `sleep 2` separates attempts, so the
retry interval is the fixed constant 2. -/

def gateMessage : String := "Waiting for postgres..."

def gateIntervalSeconds : Nat := 2

def gateSteps (reach : Nat → Bool) (k : Nat) : Nat → Option (List String)
  | 0 => none
  | fuel + 1 =>
    if reach k then some []
    else (gateSteps reach (k + 1) fuel).map (fun msgs => gateMessage :: msgs)

/-- If the probed address is never reachable, the loop never terminates,
whatever the fuel: the gate blocks indefinitely. -/
theorem gateSteps_blocks (reach : Nat → Bool) (h : ∀ n, reach n = false) :
    ∀ fuel k, gateSteps reach k fuel = none := by
  intro fuel
  induction fuel with
  | zero => intro k; rfl
  | succ n ih =>
    intro k
    simp only [gateSteps, h k, Bool.false_eq_true, if_false, ih (k + 1), Option.map_none']

/-- Every line the loop emits while waiting is the observable waiting
message, and one line is emitted per failed attempt. -/
theorem gateSteps_observable (reach : Nat → Bool) :
    ∀ fuel k msgs, gateSteps reach k fuel = some msgs →
      (∀ m ∈ msgs, m = gateMessage) ∧
      (∀ n, k ≤ n → n < k + msgs.length → reach n = false) := by
  intro fuel
  induction fuel with
  | zero => intro k msgs h; exact absurd h (by simp [gateSteps])
  | succ f ih =>
    intro k msgs h
    simp only [gateSteps] at h
    by_cases hr : reach k
    · simp only [hr, if_true] at h
      cases h
      exact ⟨by simp, by intro n h1 h2; simp at h2; omega⟩
    · simp only [hr, if_false] at h
      cases hrec : gateSteps reach (k + 1) f with
      | none => rw [hrec] at h; simp at h
      | some rest =>
        rw [hrec] at h
        simp only [Option.map_some'] at h
        cases h
        obtain ⟨hall, hfail⟩ := ih (k + 1) rest hrec
        refine ⟨?_, ?_⟩
        · intro m hm
          rcases List.mem_cons.mp hm with h1 | h2
          · exact h1
          · exact hall m h2
        · intro n hn1 hn2
          rcases Nat.eq_or_lt_of_le hn1 with heq | hlt
          · rw [← heq]; exact Bool.eq_false_iff.mpr hr
          · exact hfail n hlt (by simp at hn2 ⊢; omega)

/-! ## Spec-modelled dependency-graph builder

Modelled from the spec: §4.3 "Dependency Graph Builder"
(`build(release) -> orderedComponents | CycleError`) is not present in the
repository's chart sources — the charts wire dependencies implicitly (the
hardcoded `wait-for-postgres` init container and the `backend.releaseName`
string) and contain no code that validates `depends-on` declarations. The
definitions below follow the spec's words: construct a directed graph from
`depends-on` edges, topologically sort with a declaration-order tie-break,
fail with `UnknownDependency{from, to}` on a dangling reference and with
`CyclicDependency{cycle}` on a cycle; both failures yield no resource set. -/

inductive SKind where
  | stateful
  | stateless
deriving Repr, DecidableEq

structure SComponent where
  name : String
  kind : SKind
  dependsOn : List String
deriving Repr, DecidableEq

structure SRelease where
  releaseName : String
  components : List SComponent
deriving Repr, DecidableEq

inductive BuildError where
  | unknownDependency (depFrom depTo : String)
  | cyclicDependency (cycle : List String)
deriving Repr, DecidableEq

def allNames (cs : List SComponent) : List String := cs.map SComponent.name

/-- First dangling reference in declaration order. -/
def findDanglingAux (names : List String) : List SComponent → Option (String × String)
  | [] => none
  | c :: rest =>
    match c.dependsOn.find? (fun d => !(names.contains d)) with
    | some d => some (c.name, d)
    | none => findDanglingAux names rest

/-- A component is ready once all its dependencies have been emitted. -/
def readyC (emitted : List String) (c : SComponent) : Bool :=
  c.dependsOn.all (fun d => emitted.contains d)

/-- First ready component in declaration order, and the remaining list. -/
def extractReady (emitted : List String) : List SComponent →
    Option (SComponent × List SComponent)
  | [] => none
  | c :: rest =>
    if readyC emitted c then some (c, rest)
    else (extractReady emitted rest).map (fun p => (p.1, c :: p.2))

/-- Kahn's algorithm with declaration-order tie-break; returns the emitted
order and the stuck remainder. -/
def kahnAux (emitted : List String) (pending : List SComponent) :
    Nat → List SComponent × List SComponent
  | 0 => ([], pending)
  | fuel + 1 =>
    match extractReady emitted pending with
    | none => ([], pending)
    | some (c, rest) =>
      let p := kahnAux (emitted ++ [c.name]) rest fuel
      (c :: p.1, p.2)

/-- Suffix of a list starting at the first occurrence of `x`. -/
def sufFrom : List String → String → List String
  | [], _ => []
  | a :: as, x => if a = x then a :: as else sufFrom as x

/-- First unsatisfied dependency (inside the stuck set) of the stuck
component named `cur`. -/
def stuckDep (stuck : List SComponent) (cur : String) : Option String :=
  match stuck.find? (fun c => c.name == cur) with
  | none => none
  | some c => c.dependsOn.find? (fun d => (allNames stuck).contains d)

/-- Walk unsatisfied dependencies inside the stuck set until a name repeats;
the segment from the first repeat is the reported cycle. -/
def walkCycle (stuck : List SComponent) : List String → String → Nat → List String
  | _, cur, 0 => [cur]
  | path, cur, fuel + 1 =>
    if cur ∈ path then sufFrom path cur
    else
      match stuckDep stuck cur with
      | none => [cur]
      | some d => walkCycle stuck (path ++ [cur]) d fuel

def extractCycle (stuck : List SComponent) : List String :=
  match stuck with
  | [] => []
  | c :: _ => walkCycle stuck [] c.name (stuck.length + 1)

/-- `build(release)`: dangling-reference check, then topological sort,
then cycle extraction on a stall. -/
def build (r : SRelease) : Except BuildError (List SComponent) :=
  match findDanglingAux (allNames r.components) r.components with
  | some p => .error (.unknownDependency p.1 p.2)
  | none =>
    let res := kahnAux [] r.components r.components.length
    if res.2.isEmpty then .ok res.1
    else .error (.cyclicDependency (extractCycle res.2))

/-- A spec resource: the service address `<release>-<component>` plus the
component's descriptor, emitted in topological order. -/
structure SResource where
  serviceAddress : String
  component : SComponent
deriving Repr, DecidableEq

/-- Modelled from the spec: §4.5 `render(release) -> ResourceSet`; a build
failure is fatal and produces no resource set. -/
def renderModel (r : SRelease) : Except BuildError (List SResource) :=
  (build r).map (fun ordered =>
    ordered.map (fun c => ⟨r.releaseName ++ "-" ++ c.name, c⟩))

/-! ## Base64 lemmas -/

theorem b64CharIndex_b64Char : ∀ d < 64, b64CharIndex (b64Char d) = some d := by
  decide

theorem b64Char_ne_pad : ∀ d < 64, b64Char d ≠ '=' := by
  decide

theorem b64_roundtrip :
    ∀ bs : List Nat, (∀ b ∈ bs, b < 256) →
      b64decodeChars (b64encodeBytes bs) = some bs := by
  intro bs
  induction bs using b64encodeBytes.induct with
  | case1 =>
    intro _
    rfl
  | case2 b1 =>
    intro hb
    have h1 : b1 < 256 := hb b1 (by simp)
    simp only [b64encodeBytes, b64decodeChars]
    rw [if_pos trivial, if_pos ⟨trivial, trivial⟩]
    rw [b64CharIndex_b64Char (b1 / 4) (by omega),
        b64CharIndex_b64Char (b1 % 4 * 16) (by omega)]
    simp only [Option.some.injEq, List.cons.injEq, and_true]
    omega
  | case3 b1 b2 =>
    intro hb
    have h1 : b1 < 256 := hb b1 (by simp)
    have h2 : b2 < 256 := hb b2 (by simp)
    simp only [b64encodeBytes, b64decodeChars]
    rw [if_neg (b64Char_ne_pad (b2 % 16 * 4) (by omega)), if_pos trivial, if_pos trivial]
    rw [b64CharIndex_b64Char (b1 / 4) (by omega),
        b64CharIndex_b64Char (b1 % 4 * 16 + b2 / 16) (by omega),
        b64CharIndex_b64Char (b2 % 16 * 4) (by omega)]
    simp only [Option.some.injEq, List.cons.injEq, and_true]
    constructor <;> omega
  | case4 b1 b2 b3 rest ih =>
    intro hb
    have h1 : b1 < 256 := hb b1 (by simp)
    have h2 : b2 < 256 := hb b2 (by simp)
    have h3 : b3 < 256 := hb b3 (by simp)
    have hrest : ∀ b ∈ rest, b < 256 := fun b hbm => hb b (by simp [hbm])
    simp only [b64encodeBytes, b64decodeChars]
    rw [if_neg (b64Char_ne_pad (b2 % 16 * 4 + b3 / 64) (by omega)),
        if_neg (b64Char_ne_pad (b3 % 64) (by omega))]
    rw [b64CharIndex_b64Char (b1 / 4) (by omega),
        b64CharIndex_b64Char (b1 % 4 * 16 + b2 / 16) (by omega),
        b64CharIndex_b64Char (b2 % 16 * 4 + b3 / 64) (by omega),
        b64CharIndex_b64Char (b3 % 64) (by omega),
        ih hrest]
    simp only [Option.some.injEq, List.cons.injEq, and_true]
    refine ⟨by omega, by omega, by omega⟩

/-- Helper: decoding a `b64enc`-encoded ASCII string recovers it verbatim. -/
theorem b64decToString_b64enc (s : String) (h : ∀ c ∈ s.data, c.toNat < 128) :
    b64decToString (b64enc s) = some s := by
  have hbytes : ∀ b ∈ strBytes s, b < 256 := by
    intro b hbm
    simp only [strBytes, List.mem_map] at hbm
    obtain ⟨c, hc, rfl⟩ := hbm
    have := h c hc
    omega
  simp only [b64decToString, b64enc, b64_roundtrip (strBytes s) hbytes,
    Option.map_some']
  cases s with
  | mk data =>
    simp only [strBytes]
    congr 1
    rw [List.map_map]
    have hid : ∀ c ∈ data, (Char.ofNat ∘ Char.toNat) c = c := by
      intro c _
      simp [Function.comp, Char.ofNat_toNat]
    rw [List.map_congr_left hid, List.map_id']


/-! ## Claim theorems: secret encoding (C9) -/

/-- C9: for every configured credential bundle, the rendered secret stores
each field (username, password, database) as exactly the base64 encoding of
the configured literal value, and base64-decoding each rendered field
recovers the configured literal verbatim. Determinism is structural:
`pgSecret` and `b64enc` are pure functions of the configuration. (Stated
for ASCII credential literals, where code points coincide with UTF-8
bytes.) -/
theorem pgSecret_base64_roundtrip (releaseName : String) (v : BackendValues)
    (henabled : v.postgres.enabled = true)
    (hu : ∀ c ∈ v.postgres.auth.username.data, c.toNat < 128)
    (hp : ∀ c ∈ v.postgres.auth.password.data, c.toNat < 128)
    (hd : ∀ c ∈ v.postgres.auth.database.data, c.toNat < 128) :
    ∃ s, pgSecret releaseName v = some s ∧
      s.username = b64enc v.postgres.auth.username ∧
      s.password = b64enc v.postgres.auth.password ∧
      s.database = b64enc v.postgres.auth.database ∧
      b64decToString s.username = some v.postgres.auth.username ∧
      b64decToString s.password = some v.postgres.auth.password ∧
      b64decToString s.database = some v.postgres.auth.database := by
  refine ⟨⟨pgSecretName releaseName, b64enc v.postgres.auth.username,
            b64enc v.postgres.auth.password, b64enc v.postgres.auth.database⟩,
          by simp [pgSecret, henabled], rfl, rfl, rfl, ?_, ?_, ?_⟩
  · exact b64decToString_b64enc _ hu
  · exact b64decToString_b64enc _ hp
  · exact b64decToString_b64enc _ hd

/-- Witness for C9 at the chart's default credentials. -/
theorem pgSecret_base64_roundtrip_witness :
    ∃ s, pgSecret "my-backend" defaultBackendValues = some s ∧
      s.username = b64enc "appuser" ∧
      s.password = b64enc "supersecret" ∧
      s.database = b64enc "appdb" ∧
      b64decToString s.username = some "appuser" ∧
      b64decToString s.password = some "supersecret" ∧
      b64decToString s.database = some "appdb" :=
  pgSecret_base64_roundtrip "my-backend" defaultBackendValues rfl
    (by decide) (by decide) (by decide)

/-! ## Claim theorems: frontend backend URL (C10) -/

/-- C10: when `backend.customUrl` is set (truthy), the rendered
`BACKEND_URL` value equals it verbatim; only when it is unset (absent or
empty, both falsy to the template) does it equal
`http://<backend.releaseName>:<backend.port>` with the port coerced to an
integer; and the frontend deployment's env carries exactly this value. -/
theorem frontend_backendUrl_spec (releaseName : String) (v : FrontendValues) :
    (∀ u, v.backend.customUrl = some u → u ≠ "" → backendUrl v = u) ∧
    ((v.backend.customUrl = none ∨ v.backend.customUrl = some "") →
      backendUrl v =
        "http://" ++ v.backend.releaseName ++ ":" ++
          toString (scalarToInt v.backend.port)) ∧
    EnvEntry.mk "BACKEND_URL" (.lit (backendUrl v)) ∈
      (frontendDeployment releaseName v).env := by
  refine ⟨?_, ?_, ?_⟩
  · intro u hu hne
    simp [backendUrl, hu, hne]
  · intro h
    rcases h with h | h <;> simp [backendUrl, h]
  · simp [frontendDeployment]

/-- Witness for C10: one configuration with `customUrl` set, one without. -/
theorem frontend_backendUrl_spec_witness :
    backendUrl { defaultFrontendValues with
        backend := { releaseName := "my-backend", port := .int 8000,
                     customUrl := some "http://custom:9000" } } =
      "http://custom:9000" ∧
    backendUrl defaultFrontendValues = "http://" ++ "my-backend" ++ ":" ++ toString (scalarToInt (.int 8000)) := by
  constructor
  · exact (frontend_backendUrl_spec "my-frontend" _).1 _ rfl (by decide)
  · exact (frontend_backendUrl_spec "my-frontend" defaultFrontendValues).2.1 (Or.inl rfl)

/-! ## Claim theorems: deterministic rendering (C7) -/

/-- C7: rendering is deterministic — two renders of the same configuration
(same release name, same values, same declaration order) produce
byte-identical output. In this embedding both charts render through the
pure functions `renderBackendManifests` and `renderFrontendManifests`; the
env map is rendered in sorted key order (`sortEnvPairs`), as Go templates
iterate maps, so the output strings are a function of the input alone. -/
theorem rendering_deterministic (rb1 rb2 rf1 rf2 : String) (v1 v2 : BackendValues)
    (w1 w2 : FrontendValues) (hrb : rb1 = rb2) (hv : v1 = v2)
    (hrf : rf1 = rf2) (hw : w1 = w2) :
    renderBackendManifests rb1 v1 = renderBackendManifests rb2 v2 ∧
    renderFrontendManifests rf1 w1 = renderFrontendManifests rf2 w2 := by
  subst hrb hv hrf hw
  exact ⟨rfl, rfl⟩

/-- Witness for C7 at the default configurations. -/
theorem rendering_deterministic_witness :
    renderBackendManifests "my-backend" defaultBackendValues =
      renderBackendManifests "my-backend" defaultBackendValues ∧
    renderFrontendManifests "my-frontend" defaultFrontendValues =
      renderFrontendManifests "my-frontend" defaultFrontendValues :=
  rendering_deterministic "my-backend" "my-backend" "my-frontend" "my-frontend"
    defaultBackendValues defaultBackendValues defaultFrontendValues
    defaultFrontendValues rfl rfl rfl rfl

/-! ## Claim theorems: database wiring of the backend workload (C6) -/

/-- Replace only the configured postgres password. -/
def setPassword (v : BackendValues) (p : String) : BackendValues :=
  { v with postgres := { v.postgres with auth := { v.postgres.auth with password := p } } }

/-- C6: with the stateful component enabled, the backend workload's env binds
`DB_HOST` to the literal `<releaseName>-postgres` (the postgres service-role
address, whose rendered service listens on the declared port 5432), binds the
database name, username and password as secret references into
`<releaseName>-postgres-secret`, and the rendered workload descriptor is
independent of the configured password literal (so the plaintext password
never appears in it). -/
theorem backend_db_bindings (releaseName : String) (v : BackendValues)
    (h : v.postgres.enabled = true) :
    EnvEntry.mk "DB_HOST" (.lit (pgServiceName releaseName)) ∈ backendEnv releaseName v ∧
    EnvEntry.mk "DB_NAME" (.secretRef (pgSecretName releaseName) "database") ∈
      backendEnv releaseName v ∧
    EnvEntry.mk "DB_USER" (.secretRef (pgSecretName releaseName) "username") ∈
      backendEnv releaseName v ∧
    EnvEntry.mk "DB_PASSWORD" (.secretRef (pgSecretName releaseName) "password") ∈
      backendEnv releaseName v ∧
    (∃ svc, pgService releaseName v = some svc ∧
      svc.name = pgServiceName releaseName ∧ svc.port = 5432) ∧
    (∀ p, backendDeployment releaseName (setPassword v p) =
      backendDeployment releaseName v) := by
  refine ⟨?_, ?_, ?_, ?_,
    ⟨⟨pgServiceName releaseName, "ClusterIP", 5432, "postgres", true⟩,
      by simp [pgService, h], rfl, rfl⟩, ?_⟩
  · simp [backendEnv, h, pgServiceName]
  · simp [backendEnv, h]
  · simp [backendEnv, h]
  · simp [backendEnv, h]
  · intro p
    cases v with
    | mk rc ir it sp env pg no fo =>
      cases pg with
      | mk en pir pit auth ps =>
        cases auth with
        | mk d u pw => rfl

/-- Witness for C6 at the spec's scenario (release `r1`, credentials
`u`/`p`/`appdb`). -/
def scenarioValues : BackendValues :=
  { defaultBackendValues with
    postgres := { defaultBackendValues.postgres with
      auth := { database := "appdb", username := "u", password := "p" } } }

theorem backend_db_bindings_witness :
    scenarioValues.postgres.enabled = true ∧
    EnvEntry.mk "DB_HOST" (.lit (pgServiceName "r1")) ∈ backendEnv "r1" scenarioValues ∧
    EnvEntry.mk "DB_PASSWORD" (.secretRef (pgSecretName "r1") "password") ∈
      backendEnv "r1" scenarioValues :=
  ⟨rfl, (backend_db_bindings "r1" scenarioValues rfl).1,
    (backend_db_bindings "r1" scenarioValues rfl).2.2.2.1⟩

/-! ## Claim theorems: unconditional startup gate (C8) -/

/-- C8: the `wait-for-postgres` init container is emitted unconditionally:
even with `postgres.enabled = false` the backend deployment carries the gate
probing `<releaseName>-postgres` on port 5432, while no postgres secret,
stateful set or service is rendered; and the gate's loop never terminates
while its probe target is unreachable, so such a backend waits forever at
startup. -/
theorem backend_gate_unconditional (releaseName : String) (v : BackendValues)
    (h : v.postgres.enabled = false) :
    (backendDeployment releaseName v).initContainers = [waitForPostgres releaseName] ∧
    (waitForPostgres releaseName).args =
      ["until nc -z " ++ pgServiceName releaseName ++ " 5432; do\n" ++
       "  echo \x22Waiting for postgres...\x22\n" ++ "  sleep 2\n" ++ "done\n"] ∧
    (renderBackend releaseName v).secret = none ∧
    (renderBackend releaseName v).statefulSet = none ∧
    (renderBackend releaseName v).postgresService = none ∧
    (∀ reach : Nat → Bool, (∀ n, reach n = false) →
      ∀ fuel k, gateSteps reach k fuel = none) := by
  refine ⟨rfl, ?_, ?_, ?_, ?_, fun reach hr => gateSteps_blocks reach hr⟩
  · simp [waitForPostgres, waitForPostgresScript]
  · simp [renderBackend, pgSecret, h]
  · simp [renderBackend, pgStatefulSet, h]
  · simp [renderBackend, pgService, h]

/-- Witness for C8: postgres disabled on the default configuration. -/
def disabledPostgresValues : BackendValues :=
  { defaultBackendValues with
    postgres := { defaultBackendValues.postgres with enabled := false } }

theorem backend_gate_unconditional_witness :
    (backendDeployment "my-backend" disabledPostgresValues).initContainers =
      [waitForPostgres "my-backend"] ∧
    (renderBackend "my-backend" disabledPostgresValues).secret = none ∧
    gateSteps (fun _ => false) 0 1000 = none :=
  ⟨(backend_gate_unconditional "my-backend" disabledPostgresValues rfl).1,
   (backend_gate_unconditional "my-backend" disabledPostgresValues rfl).2.2.1,
   (backend_gate_unconditional "my-backend" disabledPostgresValues rfl).2.2.2.2.2
     (fun _ => false) (fun _ => rfl) 1000 0⟩

/-! ## Claim theorems: readiness gates per dependency (C3) -/

/-- C3 counterexample: the frontend chart's deployment — a stateless
component whose configuration declares a dependency on the backend release
(`backend.releaseName = "my-backend"`) — is rendered with no init containers
at all, so its startup stage contains no readiness-gate precondition for its
declared dependency. -/
theorem frontend_has_no_readiness_gate :
    (frontendDeployment "my-frontend" defaultFrontendValues).initContainers = [] ∧
    defaultFrontendValues.backend.releaseName = "my-backend" :=
  ⟨rfl, rfl⟩

/-- C3 amended: only the backend's startup stage carries a readiness gate
for its postgres dependency — a TCP reachability probe (`nc -z`) against the
resolved service address at a fixed 2-second interval, unbounded (it blocks
indefinitely while unreachable) and observable (it echoes a waiting message
on every retry); the frontend's startup stage has no gate for its declared
backend dependency. -/
theorem readiness_gate_backend_only (releaseName : String) (v : BackendValues)
    (fv : FrontendValues) :
    (backendDeployment releaseName v).initContainers = [waitForPostgres releaseName] ∧
    (waitForPostgres releaseName).args =
      ["until nc -z " ++ pgServiceName releaseName ++ " 5432; do\n" ++
       "  echo \x22Waiting for postgres...\x22\n" ++ "  sleep 2\n" ++ "done\n"] ∧
    (∀ reach : Nat → Bool, (∀ n, reach n = false) →
      ∀ fuel k, gateSteps reach k fuel = none) ∧
    (∀ reach fuel k msgs, gateSteps reach k fuel = some msgs →
      ∀ m ∈ msgs, m = gateMessage) ∧
    (frontendDeployment releaseName fv).initContainers = [] := by
  refine ⟨rfl, ?_, fun reach hr => gateSteps_blocks reach hr, ?_, rfl⟩
  · simp [waitForPostgres, waitForPostgresScript]
  · intro reach fuel k msgs hsome
    exact (gateSteps_observable reach fuel k msgs hsome).1

/-- Witness for C3's amended statement. -/
theorem readiness_gate_backend_only_witness :
    (backendDeployment "my-backend" defaultBackendValues).initContainers =
      [waitForPostgres "my-backend"] ∧
    gateSteps (fun _ => false) 0 500 = none ∧
    (frontendDeployment "my-frontend" defaultFrontendValues).initContainers = [] :=
  ⟨(readiness_gate_backend_only "my-backend" defaultBackendValues defaultFrontendValues).1,
   (readiness_gate_backend_only "my-backend" defaultBackendValues
      defaultFrontendValues).2.2.1 (fun _ => false) (fun _ => rfl) 500 0,
   (readiness_gate_backend_only "my-backend" defaultBackendValues
      defaultFrontendValues).2.2.2.2⟩

/-! ## Name lemmas for the identifier claims (C4, C5) -/

/-- RFC-1123-ish character class used by the addressing scheme:
lowercase letters, digits, hyphen. -/
def isRFC1123Char (c : Char) : Bool :=
  c == '-' || ('a' ≤ c && c ≤ 'z') || ('0' ≤ c && c ≤ '9')

def allValid (l : List Char) : Bool := l.all isRFC1123Char

def isRFC1123Str (s : String) : Bool := allValid s.data

theorem allValid_of_sub {l l' : List Char} (hsub : l ⊆ l')
    (h : allValid l' = true) : allValid l = true := by
  simp only [allValid, List.all_eq_true] at h ⊢
  exact fun c hc => h c (hsub hc)

theorem allValid_append {l1 l2 : List Char} (h1 : allValid l1 = true)
    (h2 : allValid l2 = true) : allValid (l1 ++ l2) = true := by
  simp only [allValid, List.all_eq_true] at *
  intro c hc
  rcases List.mem_append.mp hc with h | h
  · exact h1 c h
  · exact h2 c h

theorem isRFC1123Str_append {a b : String} (ha : isRFC1123Str a = true)
    (hb : isRFC1123Str b = true) : isRFC1123Str (a ++ b) = true := by
  simp only [isRFC1123Str, String.data_append]
  exact allValid_append ha hb

theorem isRFC1123Str_trunc63 {s : String} (h : isRFC1123Str s = true) :
    isRFC1123Str (trunc63 s) = true :=
  allValid_of_sub (List.take_subset 63 s.data) h

theorem isRFC1123Str_trimSuffixDash {s : String} (h : isRFC1123Str s = true) :
    isRFC1123Str (trimSuffixDash s) = true := by
  unfold trimSuffixDash
  split
  · exact allValid_of_sub (List.dropLast_subset s.data) h
  · exact h

theorem trunc63_length_le (s : String) : (trunc63 s).length ≤ 63 := by
  have h : (trunc63 s).length = (s.data.take 63).length := rfl
  rw [h, List.length_take]
  omega

theorem trunc63_length_le_self (s : String) : (trunc63 s).length ≤ s.length := by
  have h : (trunc63 s).length = (s.data.take 63).length := rfl
  have h2 : s.length = s.data.length := rfl
  rw [h, h2, List.length_take]
  omega

theorem trimSuffixDash_length_le (s : String) :
    (trimSuffixDash s).length ≤ s.length := by
  unfold trimSuffixDash
  split
  · have h : (⟨s.data.dropLast⟩ : String).length = s.data.dropLast.length := rfl
    have h2 : s.length = s.data.length := rfl
    rw [h, h2, List.length_dropLast]
    omega
  · exact Nat.le_refl _

theorem chartFullname_length_le_63 (chart r no fo : String) :
    (chartFullname chart r no fo).length ≤ 63 := by
  unfold chartFullname
  split
  · exact le_trans (trimSuffixDash_length_le _) (trunc63_length_le _)
  · split
    · exact le_trans (trimSuffixDash_length_le _) (trunc63_length_le _)
    · exact le_trans (trimSuffixDash_length_le _) (trunc63_length_le _)

theorem chartFullname_length_le (chart r : String) :
    (chartFullname chart r "" "").length ≤ r.length + chart.length + 1 := by
  unfold chartFullname
  rw [if_neg (by simp)]
  have hname : chartNameOf chart "" = chart := by simp [chartNameOf]
  rw [hname]
  split
  · have h1 := trimSuffixDash_length_le (trunc63 r)
    have h2 := trunc63_length_le_self r
    omega
  · have h1 := trimSuffixDash_length_le (trunc63 (r ++ "-" ++ chart))
    have h2 := trunc63_length_le_self (r ++ "-" ++ chart)
    have h3 : (r ++ "-" ++ chart).length = r.length + 1 + chart.length := by
      rw [String.length_append, String.length_append]
      have hd : ("-" : String).length = 1 := rfl
      omega
    omega

theorem chartFullname_valid (chart r : String) (hc : isRFC1123Str chart = true)
    (hr : isRFC1123Str r = true) :
    isRFC1123Str (chartFullname chart r "" "") = true := by
  unfold chartFullname
  rw [if_neg (by simp)]
  have hname : chartNameOf chart "" = chart := by simp [chartNameOf]
  rw [hname]
  split
  · exact isRFC1123Str_trimSuffixDash (isRFC1123Str_trunc63 hr)
  · refine isRFC1123Str_trimSuffixDash (isRFC1123Str_trunc63 ?_)
    exact isRFC1123Str_append (isRFC1123Str_append hr (by decide)) hc

/-! ## Claim theorems: identifier syntax and length bound (C4) -/

/-- A 60-character (valid, lowercase) release name. -/
def longRelease : String :=
  "aaaaaaaaaaaaaaaaaaaaaaaaaaaaaaaaaaaaaaaaaaaaaaaaaaaaaaaaaaaa"

/-- C4 counterexample: with a valid 60-character release name, the
postgres-derived names are not truncated at all and exceed the 63-character
bound of the addressing scheme (the bound the fullname helpers enforce via
`trunc 63`), and the fullname helper's own truncation cuts into the chart
suffix rather than truncating the release name. -/
theorem identifier_bound_violated :
    isRFC1123Str longRelease = true ∧
    63 < (pgSecretName longRelease).length ∧
    63 < (pgServiceName longRelease).length ∧
    63 < (pgStorageClaimName longRelease).length ∧
    backendFullname longRelease defaultBackendValues =
      "aaaaaaaaaaaaaaaaaaaaaaaaaaaaaaaaaaaaaaaaaaaaaaaaaaaaaaaaaaaa-ba" := by
  refine ⟨by decide, by decide, by decide, by decide, by decide⟩

/-- C4 amended: for release names over the scheme's alphabet, every derived
identifier is a lowercase RFC-1123-style string; the fullname helpers bound
their output at 63 characters by truncating the concatenation from the tail
(which can cut into the chart-name suffix); the postgres service, secret and
storage-claim names always carry their role suffix in full and are never
truncated, so they can exceed the 63-character bound for long release
names. -/
theorem identifier_scheme_amended (r : String) (v : BackendValues)
    (fv : FrontendValues) (hr : isRFC1123Str r = true)
    (hn : v.nameOverride = "") (hf : v.fullnameOverride = "")
    (hn2 : fv.nameOverride = "") (hf2 : fv.fullnameOverride = "") :
    isRFC1123Str (backendFullname r v) = true ∧
    (backendFullname r v).length ≤ 63 ∧
    isRFC1123Str (frontendFullname r fv) = true ∧
    (frontendFullname r fv).length ≤ 63 ∧
    isRFC1123Str (pgServiceName r) = true ∧
    pgServiceName r = r ++ "-postgres" ∧
    isRFC1123Str (pgSecretName r) = true ∧
    pgSecretName r = r ++ "-postgres-secret" ∧
    isRFC1123Str (pgStorageClaimName r) = true ∧
    pgStorageClaimName r = "postgres-data-" ++ r ++ "-postgres-0" := by
  refine ⟨?_, ?_, ?_, ?_, ?_, rfl, ?_, rfl, ?_, rfl⟩
  · rw [backendFullname, hn, hf]
    exact chartFullname_valid _ _ (by decide) hr
  · rw [backendFullname, hn, hf]
    exact chartFullname_length_le_63 _ _ _ _
  · rw [frontendFullname, hn2, hf2]
    exact chartFullname_valid _ _ (by decide) hr
  · rw [frontendFullname, hn2, hf2]
    exact chartFullname_length_le_63 _ _ _ _
  · exact isRFC1123Str_append hr (by decide)
  · exact isRFC1123Str_append hr (by decide)
  · exact isRFC1123Str_append (isRFC1123Str_append (by decide) hr) (by decide)

/-- Witness for C4's amended statement. -/
theorem identifier_scheme_amended_witness :
    isRFC1123Str (backendFullname "my-backend" defaultBackendValues) = true ∧
    (backendFullname "my-backend" defaultBackendValues).length ≤ 63 ∧
    isRFC1123Str (pgSecretName "my-backend") = true :=
  ⟨(identifier_scheme_amended "my-backend" defaultBackendValues
      defaultFrontendValues (by decide) rfl rfl rfl rfl).1,
   (identifier_scheme_amended "my-backend" defaultBackendValues
      defaultFrontendValues (by decide) rfl rfl rfl rfl).2.1,
   (identifier_scheme_amended "my-backend" defaultBackendValues
      defaultFrontendValues (by decide) rfl rfl rfl rfl).2.2.2.2.2.2.1⟩

/-! ## Claim theorems: identifier injectivity (C5) -/

/-- C5: within a single release (default name overrides), identifier
resolution is injective — the stateless workload's service name, the
stateful component's service name, its secret name and its storage-claim
name are pairwise distinct, for every release name. Determinism is
structural: all four are pure functions of the release name. -/
theorem resolve_injective (r : String) (v : BackendValues)
    (hn : v.nameOverride = "") (hf : v.fullnameOverride = "") :
    backendFullname r v ≠ pgServiceName r ∧
    backendFullname r v ≠ pgSecretName r ∧
    backendFullname r v ≠ pgStorageClaimName r ∧
    pgServiceName r ≠ pgSecretName r ∧
    pgServiceName r ≠ pgStorageClaimName r ∧
    pgSecretName r ≠ pgStorageClaimName r := by
  have hfn : (backendFullname r v).length ≤ r.length + 8 := by
    rw [backendFullname, hn, hf]
    have h := chartFullname_length_le "backend" r
    have h7 : ("backend" : String).length = 7 := rfl
    omega
  have hsvc : (pgServiceName r).length = r.length + 9 := by
    rw [pgServiceName, String.length_append]
    have h9 : ("-postgres" : String).length = 9 := rfl
    omega
  have hsec : (pgSecretName r).length = r.length + 16 := by
    rw [pgSecretName, String.length_append]
    have h16 : ("-postgres-secret" : String).length = 16 := rfl
    omega
  have hpvc : (pgStorageClaimName r).length = r.length + 25 := by
    rw [pgStorageClaimName, String.length_append, String.length_append]
    have h14 : ("postgres-data-" : String).length = 14 := rfl
    have h11 : ("-postgres-0" : String).length = 11 := rfl
    omega
  refine ⟨fun heq => ?_, fun heq => ?_, fun heq => ?_, fun heq => ?_,
          fun heq => ?_, fun heq => ?_⟩
  all_goals first
  | (have hL := congrArg String.length heq; omega)

/-- Witness for C5. -/
theorem resolve_injective_witness :
    backendFullname "my-backend" defaultBackendValues ≠ pgServiceName "my-backend" ∧
    pgSecretName "my-backend" ≠ pgStorageClaimName "my-backend" :=
  ⟨(resolve_injective "my-backend" defaultBackendValues rfl rfl).1,
   (resolve_injective "my-backend" defaultBackendValues rfl rfl).2.2.2.2.2⟩

/-! ## Dangling-reference detection (C1) -/

theorem contains_mem {l : List String} {a : String} :
    l.contains a = true ↔ a ∈ l := List.elem_iff

theorem findDanglingAux_of_exists (names : List String) (cs : List SComponent)
    (h : ∃ c ∈ cs, ∃ d ∈ c.dependsOn, d ∉ names) :
    ∃ f t, findDanglingAux names cs = some (f, t) ∧
      (∃ c ∈ cs, c.name = f ∧ t ∈ c.dependsOn) ∧ t ∉ names := by
  induction cs with
  | nil =>
    obtain ⟨c, hc, _⟩ := h
    exact absurd hc (List.not_mem_nil c)
  | cons c rest ih =>
    cases hfind : c.dependsOn.find? (fun d => !(names.contains d)) with
    | some d =>
      refine ⟨c.name, d, ?_, ⟨c, List.mem_cons_self c rest, rfl,
        List.mem_of_find?_eq_some hfind⟩, ?_⟩
      · unfold findDanglingAux
        rw [hfind]
      · have hp := List.find?_some hfind
        simp only [Bool.not_eq_true'] at hp
        intro hmem
        rw [contains_mem.mpr hmem] at hp
        exact absurd hp (by decide)
    | none =>
      obtain ⟨c', hc', d, hd, hdn⟩ := h
      rcases List.mem_cons.mp hc' with rfl | hmem
      · exfalso
        have hnone := List.find?_eq_none.mp hfind d hd
        simp only [Bool.not_eq_true'] at hnone
        cases hcb : names.contains d with
        | false => exact absurd hcb hnone
        | true => exact hdn (contains_mem.mp hcb)
      · obtain ⟨f, t, h1, h2, h3⟩ := ih ⟨c', hmem, d, hd, hdn⟩
        obtain ⟨c'', hc'', hn2, ht2⟩ := h2
        refine ⟨f, t, ?_, ⟨c'', List.mem_cons_of_mem c hc'', hn2, ht2⟩, h3⟩
        unfold findDanglingAux
        rw [hfind]
        exact h1

/-- C1 (spec-modelled): for every release in which some stateless
component's depends-on set names a component absent from the release, the
build fails with `unknownDependency (f, t)` where `f` genuinely declares a
dependency on `t` and `t` is absent from the release — and rendering
produces no resource set at all. -/
theorem build_unknown_dependency (r : SRelease)
    (h : ∃ c ∈ r.components, c.kind = .stateless ∧
      ∃ d ∈ c.dependsOn, d ∉ allNames r.components) :
    ∃ f t, build r = .error (.unknownDependency f t) ∧
      (∃ c ∈ r.components, c.name = f ∧ t ∈ c.dependsOn) ∧
      t ∉ allNames r.components ∧
      renderModel r = .error (.unknownDependency f t) := by
  obtain ⟨c, hc, _, hdep⟩ := h
  obtain ⟨f, t, h1, h2, h3⟩ :=
    findDanglingAux_of_exists (allNames r.components) r.components ⟨c, hc, hdep⟩
  refine ⟨f, t, ?_, h2, h3, ?_⟩
  · simp [build, h1]
  · simp [renderModel, build, h1, Except.map]

/-- Witness for C1: the spec's scenario — `frontend` depends on `api`, and
`api` is absent from the release. -/
def danglingRelease : SRelease :=
  ⟨"r1", [⟨"frontend", .stateless, ["api"]⟩]⟩

theorem build_unknown_dependency_witness :
    ∃ f t, build danglingRelease = .error (.unknownDependency f t) ∧
      (∃ c ∈ danglingRelease.components, c.name = f ∧ t ∈ c.dependsOn) ∧
      t ∉ allNames danglingRelease.components ∧
      renderModel danglingRelease = .error (.unknownDependency f t) :=
  build_unknown_dependency danglingRelease
    ⟨⟨"frontend", .stateless, ["api"]⟩, by simp [danglingRelease], rfl,
      "api", by simp, by simp [danglingRelease, allNames]⟩

/-! ## Cycle detection (C2): graph notions -/

/-- A declared dependency edge `a -> b` among the given components. -/
def EdgeIn (cs : List SComponent) (a b : String) : Prop :=
  ∃ c ∈ cs, c.name = a ∧ b ∈ c.dependsOn

/-- Consecutive elements are edges. -/
def chainE (cs : List SComponent) : List String → Prop
  | [] => True
  | [_] => True
  | a :: b :: rest => EdgeIn cs a b ∧ chainE cs (b :: rest)

/-- A cycle among the components' depends-on declarations: a nonempty
duplicate-free name list whose consecutive elements are edges and whose last
element has an edge back to the head. -/
def IsCycleIn (cs : List SComponent) (l : List String) : Prop :=
  match l with
  | [] => False
  | a :: rest =>
      (a :: rest).Nodup ∧ chainE cs (a :: rest) ∧
      EdgeIn cs ((a :: rest).getLastD a) a

theorem edgeIn_source_mem {cs : List SComponent} {a b : String}
    (h : EdgeIn cs a b) : a ∈ allNames cs := by
  obtain ⟨c, hc, rfl, _⟩ := h
  exact List.mem_map_of_mem SComponent.name hc

theorem chainE_tail {cs : List SComponent} {a : String} {l : List String}
    (h : chainE cs (a :: l)) : chainE cs l := by
  cases l with
  | nil => trivial
  | cons b rest => exact h.2

theorem chainE_suffix {cs : List SComponent} :
    ∀ {l1 l2 : List String}, chainE cs (l1 ++ l2) → chainE cs l2 := by
  intro l1
  induction l1 with
  | nil => exact fun h => h
  | cons a l1' ih => exact fun h => ih (chainE_tail h)

theorem getLastD_cons_cons (a b d : String) (l : List String) :
    (a :: b :: l).getLastD d = (b :: l).getLastD d := by
  simp [List.getLastD_cons, List.getLastD_cons]

/-- In a chain closed by an edge from its last element to `first`, every
element has a successor edge into the chain or to `first`. -/
theorem chain_mem_succ {cs : List SComponent} :
    ∀ (l : List String) (first d : String), chainE cs l →
      EdgeIn cs (l.getLastD d) first →
      ∀ x ∈ l, ∃ y, (y ∈ l ∨ y = first) ∧ EdgeIn cs x y := by
  intro l
  induction l with
  | nil => intro first d _ _ x hx; exact absurd hx (List.not_mem_nil x)
  | cons a rest ih =>
    intro first d hchain hlast x hx
    cases rest with
    | nil =>
      rcases List.mem_singleton.mp hx with rfl
      refine ⟨first, Or.inr rfl, ?_⟩
      simpa [List.getLastD_cons] using hlast
    | cons b rest' =>
      rcases List.mem_cons.mp hx with rfl | hx'
      · exact ⟨b, Or.inl (List.mem_cons_of_mem x (List.mem_cons_self b rest')), hchain.1⟩
      · obtain ⟨y, hy, hedge⟩ := ih first d hchain.2
          (by rw [← getLastD_cons_cons a b d rest']; exact hlast) x hx'
        refine ⟨y, ?_, hedge⟩
        rcases hy with hy | hy
        · exact Or.inl (List.mem_cons_of_mem a hy)
        · exact Or.inr hy

/-- Every member of a cycle has an outgoing edge to another member. -/
theorem cycle_mem_succ {cs : List SComponent} {l : List String}
    (h : IsCycleIn cs l) : ∀ x ∈ l, ∃ y ∈ l, EdgeIn cs x y := by
  cases l with
  | nil => exact absurd h (by simp [IsCycleIn])
  | cons a rest =>
    obtain ⟨_, hchain, hlast⟩ := h
    intro x hx
    obtain ⟨y, hy, hedge⟩ := chain_mem_succ (a :: rest) a a hchain hlast x hx
    refine ⟨y, ?_, hedge⟩
    rcases hy with hy | rfl
    · exact hy
    · exact List.mem_cons_self y rest

/-! ## Kahn-loop lemmas (C2) -/

theorem findDanglingAux_eq_none (names : List String) (cs : List SComponent)
    (h : ∀ c ∈ cs, ∀ d ∈ c.dependsOn, d ∈ names) :
    findDanglingAux names cs = none := by
  induction cs with
  | nil => rfl
  | cons c rest ih =>
    have hfind : c.dependsOn.find? (fun d => !(names.contains d)) = none := by
      rw [List.find?_eq_none]
      intro d hd
      have hmem : d ∈ names := h c (List.mem_cons_self c rest) d hd
      simp [hmem]
    unfold findDanglingAux
    rw [hfind]
    exact ih (fun c' hc' => h c' (List.mem_cons_of_mem c hc'))

theorem extractReady_eq_some {emitted : List String} :
    ∀ {pending : List SComponent} {c : SComponent} {rest : List SComponent},
      extractReady emitted pending = some (c, rest) →
      ∃ l1 l2, pending = l1 ++ c :: l2 ∧ rest = l1 ++ l2 ∧ readyC emitted c = true := by
  intro pending
  induction pending with
  | nil => intro c rest h; exact absurd h (by simp [extractReady])
  | cons a pend ih =>
    intro c rest h
    unfold extractReady at h
    by_cases hr : readyC emitted a
    · rw [if_pos hr] at h
      cases h
      exact ⟨[], pend, rfl, rfl, hr⟩
    · rw [if_neg hr] at h
      cases hext : extractReady emitted pend with
      | none => rw [hext] at h; exact absurd h (by simp)
      | some p =>
        rw [hext] at h
        simp only [Option.map_some'] at h
        obtain ⟨l1, l2, hp1, hp2, hp3⟩ := ih (show extractReady emitted pend = some (p.1, p.2) by rw [hext])
        have hc : c = p.1 := by cases h; rfl
        have hrest : rest = a :: p.2 := by cases h; rfl
        subst hc hrest
        exact ⟨a :: l1, l2, by simp [hp1], by simp [hp2], hp3⟩

theorem extractReady_eq_none {emitted : List String} :
    ∀ {pending : List SComponent},
      extractReady emitted pending = none →
      ∀ x ∈ pending, readyC emitted x = false := by
  intro pending
  induction pending with
  | nil => intro _ x hx; exact absurd hx (List.not_mem_nil x)
  | cons a pend ih =>
    intro h x hx
    unfold extractReady at h
    by_cases hr : readyC emitted a
    · rw [if_pos hr] at h; exact absurd h (by simp)
    · rw [if_neg hr] at h
      rcases List.mem_cons.mp hx with rfl | hx'
      · exact Bool.eq_false_iff.mpr hr
      · cases hext : extractReady emitted pend with
        | none => exact ih hext x hx'
        | some p => rw [hext] at h; exact absurd h (by simp)

theorem kahnAux_stuck_sublist :
    ∀ (fuel : Nat) (emitted : List String) (pending : List SComponent),
      List.Sublist (kahnAux emitted pending fuel).2 pending := by
  intro fuel
  induction fuel with
  | zero => intro em pending; exact List.Sublist.refl pending
  | succ f ih =>
    intro em pending
    unfold kahnAux
    cases hext : extractReady em pending with
    | none => exact List.Sublist.refl pending
    | some p =>
      obtain ⟨l1, l2, hp1, hp2, _⟩ := extractReady_eq_some hext
      have h1 : List.Sublist (kahnAux (em ++ [p.1.name]) p.2 f).2 p.2 := ih _ _
      have h2 : List.Sublist p.2 pending := by
        rw [hp1, hp2]
        exact List.Sublist.append_left (List.sublist_cons_self p.1 l2) l1
      exact h1.trans h2

theorem readyC_true_iff {em : List String} {c : SComponent} :
    readyC em c = true ↔ ∀ d ∈ c.dependsOn, d ∈ em := by
  simp [readyC, List.all_eq_true]

theorem kahnAux_succ_eq (em : List String) (pending : List SComponent) (f : Nat) :
    kahnAux em pending (f + 1) =
      match extractReady em pending with
      | none => ([], pending)
      | some (c, rest) =>
        let p := kahnAux (em ++ [c.name]) rest f
        (c :: p.1, p.2) := rfl

theorem kahnAux_succ_none {em : List String} {pending : List SComponent} {f : Nat}
    (hext : extractReady em pending = none) :
    kahnAux em pending (f + 1) = ([], pending) := by
  rw [kahnAux_succ_eq, hext]

theorem kahnAux_succ_some {em : List String} {pending rest : List SComponent}
    {f : Nat} {c : SComponent}
    (hext : extractReady em pending = some (c, rest)) :
    kahnAux em pending (f + 1) =
      (c :: (kahnAux (em ++ [c.name]) rest f).1,
       (kahnAux (em ++ [c.name]) rest f).2) := by
  rw [kahnAux_succ_eq, hext]

theorem kahnAux_stuck_ne_nil (P : List String) (hPne : P ≠ []) :
    ∀ (fuel : Nat) (em : List String) (pending : List SComponent),
      (pending.map SComponent.name).Nodup →
      (∀ p ∈ P, p ∉ em) →
      (∀ p ∈ P, ∃ c ∈ pending, c.name = p ∧ ∃ d ∈ c.dependsOn, d ∈ P) →
      (kahnAux em pending fuel).2 ≠ [] := by
  intro fuel
  induction fuel with
  | zero =>
    intro em pending _ _ hwit
    obtain ⟨p, hp⟩ := List.exists_mem_of_ne_nil P hPne
    obtain ⟨c, hc, _, _⟩ := hwit p hp
    exact List.ne_nil_of_mem hc
  | succ f ih =>
    intro em pending hnd hem hwit
    cases hext : extractReady em pending with
    | none =>
      rw [kahnAux_succ_none hext]
      obtain ⟨p, hp⟩ := List.exists_mem_of_ne_nil P hPne
      obtain ⟨c, hc, _, _⟩ := hwit p hp
      exact List.ne_nil_of_mem hc
    | some pr =>
      obtain ⟨c, rest⟩ := pr
      rw [kahnAux_succ_some hext]
      obtain ⟨l1, l2, hp1, hp2, hready⟩ := extractReady_eq_some hext
      have hnames_eq : pending.map SComponent.name =
          l1.map SComponent.name ++ c.name :: l2.map SComponent.name := by
        rw [hp1]; simp
      have hmid : (c.name :: (l1.map SComponent.name ++ l2.map SComponent.name)).Nodup :=
        List.nodup_middle.mp (hnames_eq ▸ hnd)
      have hnd2 : (rest.map SComponent.name).Nodup := by
        rw [hp2]
        have := List.Nodup.of_cons hmid
        simpa using this
      have hcname_not : c.name ∉ rest.map SComponent.name := by
        have := (List.nodup_cons.mp hmid).1
        rw [hp2]
        simpa using this
      have hstep : ∀ p ∈ P, (∃ cp ∈ rest, cp.name = p ∧ ∃ d ∈ cp.dependsOn, d ∈ P)
          ∧ p ≠ c.name := by
        intro p hp
        obtain ⟨cp, hcp, hcpname, d, hd, hdP⟩ := hwit p hp
        have hcpnr : readyC em cp = false := by
          cases hcb : readyC em cp with
          | false => rfl
          | true =>
            exact absurd (readyC_true_iff.mp hcb d hd) (hem d hdP)
        have hcp_ne : cp ≠ c := by
          intro heq
          rw [heq, hready] at hcpnr
          exact absurd hcpnr (by simp)
        have hcp_rest : cp ∈ rest := by
          rw [hp2]
          rw [hp1] at hcp
          rcases List.mem_append.mp hcp with h | h
          · exact List.mem_append_left _ h
          · rcases List.mem_cons.mp h with h | h
            · exact absurd h hcp_ne
            · exact List.mem_append_right _ h
        refine ⟨⟨cp, hcp_rest, hcpname, d, hd, hdP⟩, ?_⟩
        intro heq
        apply hcname_not
        rw [← heq, ← hcpname]
        exact List.mem_map_of_mem SComponent.name hcp_rest
      refine ih (em ++ [c.name]) rest hnd2 ?_ (fun p hp => (hstep p hp).1)
      intro p hp hmem
      rcases List.mem_append.mp hmem with h | h
      · exact hem p hp h
      · exact (hstep p hp).2 (List.mem_singleton.mp h)

theorem kahnAux_stall :
    ∀ (fuel : Nat) (em : List String) (pending : List SComponent),
      pending.length ≤ fuel →
      ∃ em', (∀ x ∈ (kahnAux em pending fuel).2, readyC em' x = false) ∧
        (∀ n, (n ∈ em ∨ n ∈ allNames pending) →
          (n ∈ em' ∨ n ∈ allNames (kahnAux em pending fuel).2)) := by
  intro fuel
  induction fuel with
  | zero =>
    intro em pending hlen
    have hpe : pending = [] := List.eq_nil_of_length_eq_zero (Nat.le_zero.mp hlen)
    subst hpe
    refine ⟨em, fun x hx => absurd hx (List.not_mem_nil x), ?_⟩
    intro n hn
    rcases hn with hn | hn
    · exact Or.inl hn
    · exact absurd hn (by simp [allNames])
  | succ f ih =>
    intro em pending hlen
    cases hext : extractReady em pending with
    | none =>
      rw [kahnAux_succ_none hext]
      exact ⟨em, fun x hx => extractReady_eq_none hext x hx, fun n hn => hn⟩
    | some pr =>
      obtain ⟨c, rest⟩ := pr
      rw [kahnAux_succ_some hext]
      obtain ⟨l1, l2, hp1, hp2, _⟩ := extractReady_eq_some hext
      have hrl : rest.length ≤ f := by
        have hpl : pending.length = rest.length + 1 := by
          rw [hp1, hp2]
          simp only [List.length_append, List.length_cons]
          omega
        omega
      obtain ⟨em', h1, h2⟩ := ih (em ++ [c.name]) rest hrl
      refine ⟨em', h1, ?_⟩
      intro n hn
      apply h2
      rcases hn with hn | hn
      · exact Or.inl (List.mem_append_left _ hn)
      · rw [hp1] at hn
        simp only [allNames, List.map_append, List.map_cons, List.mem_append,
          List.mem_cons] at hn
        rcases hn with hn | hn | hn
        · refine Or.inr ?_
          rw [hp2]
          simp only [allNames, List.map_append, List.mem_append]
          exact Or.inl hn
        · exact Or.inl (by simp [hn])
        · refine Or.inr ?_
          rw [hp2]
          simp only [allNames, List.map_append, List.mem_append]
          exact Or.inr hn

/-! ## Cycle-extraction lemmas (C2) -/

theorem sufFrom_spec :
    ∀ (path : List String) (x : String), x ∈ path →
      ∃ pre tail, path = pre ++ x :: tail ∧ sufFrom path x = x :: tail := by
  intro path
  induction path with
  | nil => intro x hx; exact absurd hx (List.not_mem_nil x)
  | cons a as ih =>
    intro x hx
    by_cases h : a = x
    · subst h
      exact ⟨[], as, rfl, by simp [sufFrom]⟩
    · rcases List.mem_cons.mp hx with rfl | hx'
      · exact absurd rfl h
      · obtain ⟨pre, tail, h1, h2⟩ := ih x hx'
        exact ⟨a :: pre, tail, by rw [h1]; rfl, by simp [sufFrom, h, h2]⟩

theorem chainE_snoc {cs : List SComponent} :
    ∀ (l : List String) (x d : String), chainE cs (l ++ [x]) →
      chainE cs l ∧ (l = [] ∨ EdgeIn cs (l.getLastD d) x) := by
  intro l
  induction l with
  | nil => intro x d _; exact ⟨trivial, Or.inl rfl⟩
  | cons a rest ih =>
    intro x d hchain
    cases rest with
    | nil =>
      have hx : chainE cs ([a] ++ [x]) := hchain
      refine ⟨trivial, Or.inr ?_⟩
      simpa [List.getLastD_cons] using hx.1
    | cons b rest' =>
      have hchain' : EdgeIn cs a b ∧ chainE cs ((b :: rest') ++ [x]) := hchain
      obtain ⟨hcb, hor⟩ := ih x d hchain'.2
      refine ⟨⟨hchain'.1, hcb⟩, Or.inr ?_⟩
      rcases hor with h | h
      · exact absurd h (by simp)
      · rw [getLastD_cons_cons]
        exact h

theorem chainE_snoc_snoc {cs : List SComponent} :
    ∀ (l : List String) (x y : String), chainE cs (l ++ [x]) →
      EdgeIn cs x y → chainE cs (l ++ [x, y]) := by
  intro l
  induction l with
  | nil => intro x y _ hxy; exact ⟨hxy, trivial⟩
  | cons a rest ih =>
    intro x y hchain hxy
    cases rest with
    | nil =>
      have hx : chainE cs ([a] ++ [x]) := hchain
      exact ⟨hx.1, hxy, trivial⟩
    | cons b rest' =>
      have hchain' : EdgeIn cs a b ∧ chainE cs ((b :: rest') ++ [x]) := hchain
      exact ⟨hchain'.1, ih x y hchain'.2 hxy⟩

theorem walkCycle_succ_eq (S : List SComponent) (path : List String)
    (cur : String) (f : Nat) :
    walkCycle S path cur (f + 1) =
      if cur ∈ path then sufFrom path cur
      else
        match stuckDep S cur with
        | none => [cur]
        | some d => walkCycle S (path ++ [cur]) d f := rfl

theorem walkCycle_isCycle (cs : List SComponent) (S : List SComponent)
    (hS : ∀ c ∈ S, c ∈ cs)
    (hout : ∀ c ∈ S, ∃ d ∈ c.dependsOn, d ∈ allNames S) :
    ∀ (fuel : Nat) (path : List String) (cur : String),
      path.Nodup →
      (∀ x ∈ path, x ∈ allNames S) →
      cur ∈ allNames S →
      chainE cs (path ++ [cur]) →
      (allNames S).length + 1 ≤ fuel + path.length →
      IsCycleIn cs (walkCycle S path cur fuel) := by
  intro fuel
  induction fuel with
  | zero =>
    intro path cur hnd hsub _ _ hfuel
    exfalso
    have hle : path.length ≤ (allNames S).length :=
      List.Subperm.length_le (List.Nodup.subperm hnd hsub)
    omega
  | succ f ih =>
    intro path cur hnd hsub hcur hchain hfuel
    rw [walkCycle_succ_eq]
    by_cases hmem : cur ∈ path
    · rw [if_pos hmem]
      obtain ⟨pre, tail, hpath, hsuf⟩ := sufFrom_spec path cur hmem
      rw [hsuf]
      have hndct : (cur :: tail).Nodup :=
        List.Nodup.sublist (List.suffix_append pre (cur :: tail)).sublist
          (hpath ▸ hnd)
      have hchain2 : chainE cs ((cur :: tail) ++ [cur]) := by
        have h0 : chainE cs (pre ++ ((cur :: tail) ++ [cur])) := by
          rw [← List.append_assoc, ← hpath]
          exact hchain
        exact chainE_suffix h0
      obtain ⟨hch, hor⟩ := chainE_snoc (cur :: tail) cur cur hchain2
      refine ⟨hndct, hch, ?_⟩
      rcases hor with h | h
      · exact absurd h (by simp)
      · exact h
    · rw [if_neg hmem]
      obtain ⟨c0, hc0S, hc0name⟩ := List.mem_map.mp hcur
      cases hfindc : S.find? (fun c => c.name == cur) with
      | none =>
        exfalso
        have := List.find?_eq_none.mp hfindc c0 hc0S
        exact this (by simp [hc0name])
      | some c1 =>
        have hc1S : c1 ∈ S := List.mem_of_find?_eq_some hfindc
        have hc1name : c1.name = cur := by
          have := List.find?_some hfindc
          exact beq_iff_eq.mp this
        obtain ⟨d0, hd0, hd0S⟩ := hout c1 hc1S
        cases hfindd : c1.dependsOn.find? (fun d => (allNames S).contains d) with
        | none =>
          exfalso
          have := List.find?_eq_none.mp hfindd d0 hd0
          exact this (contains_mem.mpr hd0S)
        | some d1 =>
          have hd1S : d1 ∈ allNames S :=
            contains_mem.mp (List.find?_some hfindd)
          have hd1dep : d1 ∈ c1.dependsOn := List.mem_of_find?_eq_some hfindd
          have hedge : EdgeIn cs cur d1 := ⟨c1, hS c1 hc1S, hc1name, hd1dep⟩
          have hsd : stuckDep S cur = some d1 := by
            simp only [stuckDep, hfindc, hfindd]
          rw [hsd]
          apply ih (path ++ [cur]) d1
          · simp [List.nodup_append, hnd, hmem]
          · intro x hx
            rcases List.mem_append.mp hx with h | h
            · exact hsub x h
            · rw [List.mem_singleton.mp h]
              exact hcur
          · exact hd1S
          · rw [List.append_assoc]
            exact chainE_snoc_snoc path cur d1 hchain hedge
          · rw [List.length_append, List.length_singleton]
            omega

/-- On a nonempty stuck set that is closed under unsatisfied dependencies,
the extracted cycle is a genuine dependency cycle. -/
theorem extractCycle_isCycle (cs : List SComponent) (S : List SComponent)
    (hne : S ≠ [])
    (hS : ∀ c ∈ S, c ∈ cs)
    (hout : ∀ c ∈ S, ∃ d ∈ c.dependsOn, d ∈ allNames S) :
    IsCycleIn cs (extractCycle S) := by
  cases S with
  | nil => exact absurd rfl hne
  | cons c rest =>
    show IsCycleIn cs (walkCycle (c :: rest) [] c.name ((c :: rest).length + 1))
    apply walkCycle_isCycle cs (c :: rest) hS hout
    · exact List.nodup_nil
    · intro x hx; exact absurd hx (List.not_mem_nil x)
    · exact List.mem_map_of_mem SComponent.name (List.mem_cons_self c rest)
    · exact trivial
    · simp [allNames]

theorem isCycleIn_ne_nil {cs : List SComponent} {l : List String}
    (h : IsCycleIn cs l) : l ≠ [] := by
  intro hnil
  rw [hnil] at h
  exact h

/-- C2 (spec-modelled): for every release whose depends-on declarations form
a cycle of length ≥ 2 among stateless components (with valid names and no
dangling references), the build fails with `cyclicDependency l` where `l` is
a genuine dependency cycle, of length ≥ 2, naming exactly the components of
the cycle in cycle order — and rendering produces no resource set. `build`
is a pure function, so repeated runs on the same input return the same
rotation. -/
theorem build_cyclic_dependency (r : SRelease) (C : List String)
    (hnames : (allNames r.components).Nodup)
    (hnodangle : ∀ c ∈ r.components, ∀ d ∈ c.dependsOn, d ∈ allNames r.components)
    (hC : IsCycleIn r.components C)
    (hlen : 2 ≤ C.length)
    (hstateless : ∀ n ∈ C, ∀ c ∈ r.components, c.name = n → c.kind = .stateless)
    (huniq : ∀ l, IsCycleIn r.components l → ∀ x, x ∈ l ↔ x ∈ C) :
    ∃ l, build r = .error (.cyclicDependency l) ∧
      IsCycleIn r.components l ∧ 2 ≤ l.length ∧ (∀ x, x ∈ l ↔ x ∈ C) ∧
      renderModel r = .error (.cyclicDependency l) := by
  have hdang : findDanglingAux (allNames r.components) r.components = none :=
    findDanglingAux_eq_none _ _ hnodangle
  have hCne : C ≠ [] := by
    intro h
    rw [h] at hlen
    simp at hlen
  have hwit : ∀ p ∈ C, ∃ c ∈ r.components, c.name = p ∧
      ∃ d ∈ c.dependsOn, d ∈ C := by
    intro p hp
    obtain ⟨y, hy, hedge⟩ := cycle_mem_succ hC p hp
    obtain ⟨c, hc, hcname, hydep⟩ := hedge
    exact ⟨c, hc, hcname, y, hydep, hy⟩
  have hstuckne : (kahnAux [] r.components r.components.length).2 ≠ [] := by
    apply kahnAux_stuck_ne_nil C hCne r.components.length [] r.components hnames
    · intro p _ h
      exact absurd h (List.not_mem_nil p)
    · exact hwit
  have hsub : ∀ c ∈ (kahnAux [] r.components r.components.length).2,
      c ∈ r.components := fun c hc =>
    (kahnAux_stuck_sublist r.components.length [] r.components).subset hc
  obtain ⟨em', hready, hpart⟩ :=
    kahnAux_stall r.components.length [] r.components (Nat.le_refl _)
  have hout : ∀ c ∈ (kahnAux [] r.components r.components.length).2,
      ∃ d ∈ c.dependsOn,
        d ∈ allNames (kahnAux [] r.components r.components.length).2 := by
    intro c hc
    have hrc := hready c hc
    obtain ⟨d, hd, hdne⟩ := List.all_eq_false.mp hrc
    have hdnem : d ∉ em' := fun hmem => hdne (contains_mem.mpr hmem)
    have hdall : d ∈ allNames r.components := hnodangle c (hsub c hc) d hd
    rcases hpart d (Or.inr hdall) with h | h
    · exact absurd h hdnem
    · exact ⟨d, hd, h⟩
  have hcyc : IsCycleIn r.components
      (extractCycle (kahnAux [] r.components r.components.length).2) :=
    extractCycle_isCycle r.components _ hstuckne hsub hout
  have hie : (kahnAux [] r.components r.components.length).2.isEmpty = false := by
    simp [List.isEmpty_eq_false, hstuckne]
  have hbuild : build r = .error (.cyclicDependency
      (extractCycle (kahnAux [] r.components r.components.length).2)) := by
    simp only [build, hdang, hie]
    rfl
  refine ⟨_, hbuild, hcyc, ?_, huniq _ hcyc, ?_⟩
  · by_contra hlt
    push_neg at hlt
    have hne := isCycleIn_ne_nil hcyc
    have hpos : 0 < (extractCycle (kahnAux [] r.components r.components.length).2).length :=
      List.length_pos.mpr hne
    obtain ⟨x, hx⟩ := List.length_eq_one.mp
      (by omega : (extractCycle (kahnAux [] r.components r.components.length).2).length = 1)
    cases C with
    | nil => exact hCne rfl
    | cons a C' =>
      cases C' with
      | nil => simp at hlen
      | cons b C'' =>
        have hnodupC : (a :: b :: C'').Nodup := hC.1
        have hab : a ≠ b := by
          have := (List.nodup_cons.mp hnodupC).1
          intro heq
          exact this (heq ▸ List.mem_cons_self b C'')
        have hiff := huniq _ hcyc
        have ha : a ∈ [x] := hx ▸ (hiff a).mpr (List.mem_cons_self a (b :: C''))
        have hb : b ∈ [x] := hx ▸ (hiff b).mpr
          (List.mem_cons_of_mem a (List.mem_cons_self b C''))
        rw [List.mem_singleton.mp ha, List.mem_singleton.mp hb] at hab
        exact hab rfl
  · simp [renderModel, hbuild, Except.map]

/-- Witness release for C2: `a` depends on `b`, `b` depends on `a`. -/
def cycleRelease : SRelease :=
  ⟨"r1", [⟨"a", .stateless, ["b"]⟩, ⟨"b", .stateless, ["a"]⟩]⟩

theorem cycleRelease_isCycle : IsCycleIn cycleRelease.components ["a", "b"] := by
  refine ⟨by decide, ⟨?_, trivial⟩, ?_⟩
  · exact ⟨⟨"a", .stateless, ["b"]⟩, by simp [cycleRelease], rfl, by simp⟩
  · exact ⟨⟨"b", .stateless, ["a"]⟩, by simp [cycleRelease], rfl, by simp⟩

theorem cycleRelease_cycle_unique :
    ∀ l, IsCycleIn cycleRelease.components l → ∀ x, x ∈ l ↔ x ∈ ["a", "b"] := by
  have hmem_ab : ∀ z ∈ allNames cycleRelease.components, z = "a" ∨ z = "b" := by
    intro z hz
    simpa [cycleRelease, allNames] using hz
  have hsucc_a : ∀ w, EdgeIn cycleRelease.components "a" w → w = "b" := by
    intro w hw
    obtain ⟨c, hc, hcname, hdep⟩ := hw
    simp only [cycleRelease, List.mem_cons, List.not_mem_nil, or_false] at hc
    rcases hc with rfl | rfl
    · simpa using hdep
    · simp at hcname
  have hsucc_b : ∀ w, EdgeIn cycleRelease.components "b" w → w = "a" := by
    intro w hw
    obtain ⟨c, hc, hcname, hdep⟩ := hw
    simp only [cycleRelease, List.mem_cons, List.not_mem_nil, or_false] at hc
    rcases hc with rfl | rfl
    · simp at hcname
    · simpa using hdep
  intro l hl x
  have hsrc : ∀ z ∈ l, z = "a" ∨ z = "b" := by
    intro z hz
    obtain ⟨y, _, hedge⟩ := cycle_mem_succ hl z hz
    exact hmem_ab z (edgeIn_source_mem hedge)
  have hboth : "a" ∈ l ∧ "b" ∈ l := by
    obtain ⟨z, hz⟩ := List.exists_mem_of_ne_nil l (isCycleIn_ne_nil hl)
    rcases hsrc z hz with rfl | rfl
    · obtain ⟨y, hy, hedge⟩ := cycle_mem_succ hl _ hz
      have := hsucc_a y hedge
      subst this
      exact ⟨hz, hy⟩
    · obtain ⟨y, hy, hedge⟩ := cycle_mem_succ hl _ hz
      have := hsucc_b y hedge
      subst this
      exact ⟨hy, hz⟩
  constructor
  · intro hx
    rcases hsrc x hx with rfl | rfl <;> simp
  · intro hx
    rcases List.mem_cons.mp hx with rfl | hx'
    · exact hboth.1
    · rw [List.mem_singleton.mp hx']
      exact hboth.2

/-- Witness for C2 at the spec's scenario `a ↔ b`. -/
theorem build_cyclic_dependency_witness :
    ∃ l, build cycleRelease = .error (.cyclicDependency l) ∧
      IsCycleIn cycleRelease.components l ∧ 2 ≤ l.length ∧
      (∀ x, x ∈ l ↔ x ∈ ["a", "b"]) ∧
      renderModel cycleRelease = .error (.cyclicDependency l) :=
  build_cyclic_dependency cycleRelease ["a", "b"] (by decide) (by decide)
    cycleRelease_isCycle (by decide) (by decide) cycleRelease_cycle_unique
